import Mathlib

/-
  Verification of the technical-analysis engine and price-alert evaluator of the
  crypto dashboard repository.

  The indicator pipeline (candle geometry, SMA, EMA, Bollinger bands, RSI, MACD,
  pattern detection) is embedded from the CandlestickChart component; the alert
  evaluator is embedded from the Index page's checkPriceAlerts.

  Prices are modelled as exact rationals.  JavaScript division is total on
  floating point numbers but produces a non-finite value (NaN or an infinity)
  exactly when the denominator is zero in the expressions used by this code;
  that is modelled by jsDiv returning Option: none stands for a non-finite
  result.  Math.sqrt is a real-number operation, so the Bollinger computation
  carries its values in the reals.
-/

set_option maxHeartbeats 1000000

/-- JS division on the numbers this code divides: `none` models the non-finite
result (NaN or infinity) that floating-point division yields exactly when the
denominator is `0`. -/
def jsDiv (a b : ℚ) : Option ℚ := if b = 0 then none else some (a / b)

/-- One OHLCV observation, from the `OHLCData` interface. -/
structure OHLCData where
  time : String
  «open» : ℚ
  high : ℚ
  low : ℚ
  close : ℚ
  volume : ℚ
deriving DecidableEq, Inhabited

/-- One point of a derived indicator series (`{time, value, y}` as pushed by
`calculateSMA` / `calculateEMA`); `y` is the rendered position, which is
non-finite (`none`) when the window price range is 0. -/
structure IndicatorPoint where
  time : String
  value : ℚ
  y : Option ℚ
deriving DecidableEq, Inhabited

/-- Embeds `data.map(d => [d.open, d.high, d.low, d.close]).flat()`. -/
def prices (data : List OHLCData) : List ℚ :=
  (data.map (fun d => [d.«open», d.high, d.low, d.close])).flatten

/-- Embeds `Math.min(...prices)`; the engine only evaluates it on non-empty windows,
where `min?` is `some`. -/
def minPrice (data : List OHLCData) : ℚ := ((prices data).min?).getD 0

/-- Embeds `Math.max(...prices)`. -/
def maxPrice (data : List OHLCData) : ℚ := ((prices data).max?).getD 0

/-- Embeds `priceRange = maxPrice - minPrice`. -/
def priceRange (data : List OHLCData) : ℚ := maxPrice data - minPrice data

/-- A candle as prepared for rendering by the `candles` memo: the raw OHLCV
fields plus body/wick positions (percent, top-anchored) and the bullish flag.
Positions are `Option ℚ`: `none` models the NaN the source arithmetic
produces when `priceRange` is `0`. -/
structure RenderCandle where
  time : String
  «open» : ℚ
  high : ℚ
  low : ℚ
  close : ℚ
  volume : ℚ
  bodyTop : Option ℚ
  bodyBottom : Option ℚ
  bodyHeight : Option ℚ
  wickTop : Option ℚ
  wickBottom : Option ℚ
  isBullish : Bool
deriving DecidableEq

/-- The `candles` memo of the chart component. -/
def candles (data : List OHLCData) : List RenderCandle :=
  if data.length = 0 then []
  else
    let maxP := maxPrice data
    let range := priceRange data
    data.map (fun candle =>
      let bodyTop := max candle.«open» candle.close
      let bodyBottom := min candle.«open» candle.close
      let bodyHeight := |candle.close - candle.«open»|
      { time := candle.time, «open» := candle.«open», high := candle.high,
        low := candle.low, close := candle.close, volume := candle.volume,
        bodyTop := (jsDiv (maxP - bodyTop) range).map (fun q => q * 100),
        bodyBottom := (jsDiv (maxP - bodyBottom) range).map (fun q => q * 100),
        bodyHeight := (jsDiv bodyHeight range).map (fun q => q * 100),
        wickTop := (jsDiv (maxP - candle.high) range).map (fun q => q * 100),
        wickBottom := (jsDiv (maxP - candle.low) range).map (fun q => q * 100),
        isBullish := decide (candle.«open» ≤ candle.close) })

/-- Embeds `calculateSMA(period)`: one point per index `i` from `period-1` to the end
of the window, averaging the `period` closes of `data.slice(i-period+1, i+1)`
and labelled with `data[i].time`. -/
def calculateSMA (data : List OHLCData) (period : ℕ) : List IndicatorPoint :=
  if data.length < period then []
  else
    ((List.range data.length).drop (period - 1)).map (fun i =>
      let sum := (((data.drop (i + 1 - period)).take period).map (fun d => d.close)).sum
      let avgPrice := sum / (period : ℚ)
      { time := (data.getD i default).time,
        value := avgPrice,
        y := (jsDiv (maxPrice data - avgPrice) (priceRange data)).map (fun q => q * 100) })

/-- The stateful `data.slice(period).map(...)` of `calculateEMA`: carries the
running `ema` accumulator through the list, emitting one point per candle. -/
def emaMap (maxP range multiplier : ℚ) : ℚ → List OHLCData → List IndicatorPoint
  | _, [] => []
  | ema, d :: rest =>
    let e := (d.close - ema) * multiplier + ema
    { time := d.time, value := e,
      y := (jsDiv (maxP - e) range).map (fun q => q * 100) } :: emaMap maxP range multiplier e rest

/-- Embeds `calculateEMA(period)`: seed is the simple average of the first `period`
closes, multiplier `2/(period+1)`, then the recurrence over `data.slice(period)`. -/
def calculateEMA (data : List OHLCData) (period : ℕ) : List IndicatorPoint :=
  if data.length < period then []
  else
    let multiplier := 2 / ((period : ℚ) + 1)
    let ema0 := (((data.take period).map (fun d => d.close)).sum) / (period : ℚ)
    emaMap (maxPrice data) (priceRange data) multiplier ema0 (data.drop period)

/-- JS division over the reals (for the Bollinger band positions). -/
noncomputable def jsDivR (a b : ℝ) : Option ℝ := if b = 0 then none else some (a / b)

/-- One Bollinger band point; the value lives in the reals because the source
uses `Math.sqrt`. -/
structure BandPoint where
  time : String
  value : ℝ
  y : Option ℝ
deriving Inhabited

/-- The three parallel band series returned by `calculateBollingerBands`. -/
structure Bands where
  upper : List BandPoint
  middle : List BandPoint
  lower : List BandPoint

/-- The SMA of the 20 closes of `data.slice(i-19, i+1)`, as a real. -/
noncomputable def bbSma (data : List OHLCData) (i : ℕ) : ℝ :=
  ((((data.drop (i + 1 - 20)).take 20).map (fun d => (d.close : ℝ))).sum) / 20

/-- The population variance of the same 20 closes
(`slice.reduce((acc,val) => acc + Math.pow(val - sma, 2), 0) / period`). -/
noncomputable def bbVariance (data : List OHLCData) (i : ℕ) : ℝ :=
  ((((data.drop (i + 1 - 20)).take 20).map
      (fun d => ((d.close : ℝ) - bbSma data i) ^ 2)).sum) / 20

/-- Embeds `calculateBollingerBands()`: fixed period 20; for each index `i` from 19 to
the end it pushes middle = SMA, upper = SMA + 2*stdDev, lower = SMA - 2*stdDev,
with `stdDev = Math.sqrt(variance)`. -/
noncomputable def calculateBollingerBands (data : List OHLCData) : Bands :=
  if data.length < 20 then ⟨[], [], []⟩
  else
    let maxP : ℝ := (maxPrice data : ℚ)
    let range : ℝ := (priceRange data : ℚ)
    let mk := fun (t : String) (v : ℝ) =>
      BandPoint.mk t v ((jsDivR (maxP - v) range).map (fun q => q * 100))
    let idx := (List.range data.length).drop 19
    { upper := idx.map (fun i =>
        mk (data.getD i default).time (bbSma data i + 2 * Real.sqrt (bbVariance data i))),
      middle := idx.map (fun i => mk (data.getD i default).time (bbSma data i)),
      lower := idx.map (fun i =>
        mk (data.getD i default).time (bbSma data i - 2 * Real.sqrt (bbVariance data i))) }

/-- Embeds `calculateRSI()`: fixed period 14; below 15 candles the neutral sentinel 50;
otherwise first differences of the trailing 15 closes, average gain over
average loss (zero loss floored to 1), `100 - 100/(1+rs)`. -/
def calculateRSI (data : List OHLCData) : ℚ :=
  let period : ℕ := 14
  if data.length < period + 1 then 50
  else
    let tail := data.drop (data.length - (period + 1))
    let changes := List.zipWith (fun a b => b.close - a.close) tail (tail.drop 1)
    let gains := ((changes.filter (fun c => decide (0 < c))).sum) / (period : ℚ)
    let losses := |((changes.filter (fun c => decide (c < 0))).sum)| / (period : ℚ)
    let rs := gains / (if losses = 0 then 1 else losses)
    100 - 100 / (1 + rs)

/-- The `{macd, signal, histogram}` record returned by `calculateMACD`. -/
structure MACDResult where
  macd : ℚ
  signal : ℚ
  histogram : ℚ
deriving DecidableEq

/-- Embeds `calculateMACD()`: all zero when either EMA series is empty, else the last
EMA(12) value minus the last EMA(26) value, a constant 0 signal, and
histogram = macd. -/
def calculateMACD (data : List OHLCData) : MACDResult :=
  let ema12 := calculateEMA data 12
  let ema26 := calculateEMA data 26
  if ema12.length = 0 ∨ ema26.length = 0 then ⟨0, 0, 0⟩
  else
    let macdLine := (ema12.getD (ema12.length - 1) default).value
      - (ema26.getD (ema26.length - 1) default).value
    ⟨macdLine, 0, macdLine⟩

/-- The polarity of a detected pattern, from the `Pattern` interface. -/
inductive PatternType
  | bullish
  | bearish
  | neutral
deriving DecidableEq

/-- A detected candlestick pattern. -/
structure Pattern where
  name : String
  type : PatternType
  confidence : ℕ
  description : String
deriving DecidableEq

/-- The Hammer pattern literal pushed by `detectPatterns`. -/
def hammerPattern : Pattern :=
  ⟨"Hammer (Молот)", PatternType.bullish, 75, "Сильный бычий сигнал разворота тренда"⟩

/-- The Shooting Star pattern literal. -/
def shootingStarPattern : Pattern :=
  ⟨"Shooting Star (Падающая звезда)", PatternType.bearish, 70, "Медвежий разворотный паттерн"⟩

/-- The Doji pattern literal. -/
def dojiPattern : Pattern :=
  ⟨"Doji", PatternType.neutral, 65, "Неопределенность рынка, возможный разворот"⟩

/-- The Bullish Engulfing pattern literal. -/
def bullishEngulfingPattern : Pattern :=
  ⟨"Bullish Engulfing (Бычье поглощение)", PatternType.bullish, 85,
    "Сильный бычий сигнал для входа в лонг"⟩

/-- The Bearish Engulfing pattern literal. -/
def bearishEngulfingPattern : Pattern :=
  ⟨"Bearish Engulfing (Медвежье поглощение)", PatternType.bearish, 85,
    "Сильный медвежий сигнал для входа в шорт"⟩

/-- The Three Black Crows pattern literal. -/
def threeBlackCrowsPattern : Pattern :=
  ⟨"Three Black Crows (Три черные вороны)", PatternType.bearish, 80,
    "Сильный медвежий тренд, рассмотрите шорт"⟩

/-- Embeds `detectPatterns()`: needs at least 3 candles, inspects `recent =
data.slice(-5)`, and pushes every matching pattern in source order.  The JS
literal `0.3` is the exact `3/10` here and `0.1` is `1/10`. -/
def detectPatterns (data : List OHLCData) : List Pattern :=
  if data.length < 3 then []
  else
    let recent := data.drop (data.length - 5)
    let lastCandle := recent.getD (recent.length - 1) default
    let prevCandle := recent.getD (recent.length - 2) default
    let body := |lastCandle.close - lastCandle.«open»|
    let totalRange := lastCandle.high - lastCandle.low
    let upperShadow := lastCandle.high - max lastCandle.«open» lastCandle.close
    let lowerShadow := min lastCandle.«open» lastCandle.close - lastCandle.low
    (if body * 2 < lowerShadow ∧ upperShadow < body * (3 / 10) then [hammerPattern] else []) ++
    (if body * 2 < upperShadow ∧ lowerShadow < body * (3 / 10) then [shootingStarPattern] else []) ++
    (if body < totalRange * (1 / 10) then [dojiPattern] else []) ++
    (if lastCandle.«open» < lastCandle.close ∧ prevCandle.close < prevCandle.«open» ∧
        prevCandle.«open» < lastCandle.close ∧ lastCandle.«open» < prevCandle.close
      then [bullishEngulfingPattern] else []) ++
    (if lastCandle.close < lastCandle.«open» ∧ prevCandle.«open» < prevCandle.close ∧
        lastCandle.close < prevCandle.«open» ∧ prevCandle.close < lastCandle.«open»
      then [bearishEngulfingPattern] else []) ++
    (if 3 ≤ recent.length then
        let c1 := recent.getD (recent.length - 3) default
        let c2 := recent.getD (recent.length - 2) default
        let c3 := recent.getD (recent.length - 1) default
        if c1.close < c1.«open» ∧ c2.close < c2.«open» ∧ c3.close < c3.«open» ∧
            c3.close < c2.close ∧ c2.close < c1.close
          then [threeBlackCrowsPattern] else []
      else [])

/-- The alert condition (`'above' | 'below'`). -/
inductive AlertCondition
  | above
  | below
deriving DecidableEq, Inhabited

/-- The snapshot fields of `CryptoData` that `checkPriceAlerts` reads: the
asset id it matches on and the current price. -/
structure CryptoData where
  id : String
  price : ℚ
deriving DecidableEq

/-- A user price alert rule (the `PriceAlert` interface). -/
structure PriceAlert where
  id : String
  cryptoId : String
  cryptoName : String
  targetPrice : ℚ
  condition : AlertCondition
  active : Bool
deriving DecidableEq, Inhabited

/-- The notification content of the toast emitted when an alert fires: the
alert name, the trigger price, the condition and the target. -/
structure AlertNotification where
  cryptoName : String
  price : ℚ
  condition : AlertCondition
  targetPrice : ℚ
deriving DecidableEq

/-- The trigger test of `checkPriceAlerts`, as a proposition:
`condition === 'above' ? crypto.price >= alert.targetPrice
                       : crypto.price <= alert.targetPrice`. -/
def triggeredProp (alert : PriceAlert) (crypto : CryptoData) : Prop :=
  if alert.condition = AlertCondition.above
    then alert.targetPrice ≤ crypto.price
    else crypto.price ≤ alert.targetPrice

instance (alert : PriceAlert) (crypto : CryptoData) : Decidable (triggeredProp alert crypto) := by
  unfold triggeredProp
  infer_instance

/-- One iteration of the `priceAlerts.forEach` body: the state is the current
rule list (updated through `setPriceAlerts`) together with the toasts emitted
so far, while `alert` is the rule from the list the pass iterates over. -/
def alertStep (data : List CryptoData) (st : List PriceAlert × List AlertNotification)
    (alert : PriceAlert) : List PriceAlert × List AlertNotification :=
  if alert.active = false then st
  else
    match data.find? (fun c => c.id == alert.cryptoId) with
    | none => st
    | some crypto =>
      if triggeredProp alert crypto then
        (st.1.map (fun a => if a.id == alert.id then { a with active := false } else a),
          st.2 ++ [⟨alert.cryptoName, crypto.price, alert.condition, alert.targetPrice⟩])
      else st

/-- Embeds `checkPriceAlerts(data)`: one evaluation pass over the alert list.  The
pass iterates over the alert list as it was when the tick started and folds
the functional state updates; it returns the updated rule list and the
emitted notifications. -/
def checkPriceAlerts (data : List CryptoData) (alerts : List PriceAlert) :
    List PriceAlert × List AlertNotification :=
  alerts.foldl (alertStep data) (alerts, [])

/-- Whether a rule fires during a pass over snapshot `data`: it is active, its
asset is present in the snapshot, and the trigger test holds at the found
price. -/
def firesB (data : List CryptoData) (a : PriceAlert) : Bool :=
  a.active &&
    match data.find? (fun c => c.id == a.cryptoId) with
    | none => false
    | some crypto => decide (triggeredProp a crypto)

/-- A flat two-candle window: every one of open/high/low/close equals 50. -/
def flatWindow50 : List OHLCData :=
  [⟨"t1", 50, 50, 50, 50, 0⟩, ⟨"t2", 50, 50, 50, 50, 0⟩]

/-- C1: the claim that a flat window (range = 0) yields defined finite
positions fails on the code: there is no guard, so every geometry position and
indicator y position is the non-finite `none` (the NaN of `0/0` in the
source), not a neutral finite value such as 50. -/
theorem c1_flat_window_positions_not_finite :
    priceRange flatWindow50 = 0 ∧
    (candles flatWindow50).map (fun c => c.bodyTop) = [none, none] ∧
    (candles flatWindow50).map (fun c => c.bodyBottom) = [none, none] ∧
    (candles flatWindow50).map (fun c => c.bodyHeight) = [none, none] ∧
    (candles flatWindow50).map (fun c => c.wickTop) = [none, none] ∧
    (candles flatWindow50).map (fun c => c.wickBottom) = [none, none] ∧
    (calculateSMA flatWindow50 2).map (fun p => p.y) = [none] := by
  have hmax : maxPrice flatWindow50 = 50 := by decide
  have hmin : minPrice flatWindow50 = 50 := by decide
  have hrange : priceRange flatWindow50 = 0 := by
    rw [priceRange, hmax, hmin]
    norm_num
  refine ⟨hrange, ?_, ?_, ?_, ?_, ?_, ?_⟩ <;>
    norm_num [candles, calculateSMA, flatWindow50, jsDiv, priceRange, maxPrice, minPrice,
      prices, List.max?, List.min?]

/-- The `period` closes starting at index `j`, written as a function table. -/
theorem window_closes_eq_ofFn (data : List OHLCData) (j period : ℕ)
    (h : j + period ≤ data.length) :
    ((data.drop j).take period).map (fun d => d.close)
      = List.ofFn (fun t : Fin period => (data.getD (j + (t : ℕ)) default).close) := by
  apply List.ext_getElem
  · simp only [List.length_map, List.length_take, List.length_drop, List.length_ofFn]
    omega
  · intro n h1 h2
    have hn : n < period := by
      simp only [List.length_ofFn] at h2
      exact h2
    simp only [List.getElem_map, List.getElem_take, List.getElem_drop, List.getElem_ofFn]
    rw [List.getD_eq_getElem data default (by omega)]

/-- C2: for a window at least as long as the period, `calculateSMA` emits
exactly `length - period + 1` points; point `j` carries the time label of
candle `j + period - 1` (the last candle of its trailing block) and the
arithmetic mean of the `period` closes ending there; shorter windows give the
empty series. -/
theorem c2_sma_length_values_times (data : List OHLCData) (period : ℕ)
    (hp : 1 ≤ period) :
    (data.length < period → calculateSMA data period = []) ∧
    (period ≤ data.length →
      (calculateSMA data period).length = data.length - period + 1 ∧
      ∀ j, j < (calculateSMA data period).length →
        ((calculateSMA data period).getD j default).time
            = (data.getD (j + period - 1) default).time ∧
        ((calculateSMA data period).getD j default).value
            = (∑ t : Fin period, (data.getD (j + (t : ℕ)) default).close) / (period : ℚ)) := by
  constructor
  · intro h
    simp [calculateSMA, h]
  · intro h
    have hnot : ¬ data.length < period := by omega
    have hdef : calculateSMA data period
        = ((List.range data.length).drop (period - 1)).map (fun i =>
            { time := (data.getD i default).time,
              value := (((data.drop (i + 1 - period)).take period).map
                  (fun d => d.close)).sum / (period : ℚ),
              y := (jsDiv (maxPrice data
                      - (((data.drop (i + 1 - period)).take period).map
                          (fun d => d.close)).sum / (period : ℚ))
                    (priceRange data)).map (fun q => q * 100) }) := by
      simp only [calculateSMA, if_neg hnot]
    have hlen : (calculateSMA data period).length = data.length - period + 1 := by
      rw [hdef]
      simp only [List.length_map, List.length_drop, List.length_range]
      omega
    refine ⟨hlen, ?_⟩
    intro j hj
    have hj2 : j < data.length - period + 1 := by rw [hlen] at hj; exact hj
    have hlen2 : j < (((List.range data.length).drop (period - 1)).map (fun i =>
        ({ time := (data.getD i default).time,
           value := (((data.drop (i + 1 - period)).take period).map
               (fun d => d.close)).sum / (period : ℚ),
           y := (jsDiv (maxPrice data
                  - (((data.drop (i + 1 - period)).take period).map
                      (fun d => d.close)).sum / (period : ℚ))
                (priceRange data)).map (fun q => q * 100) } : IndicatorPoint))).length := by
      simp only [List.length_map, List.length_drop, List.length_range]
      omega
    have hdrop : j < ((List.range data.length).drop (period - 1)).length := by
      simp only [List.length_drop, List.length_range]
      omega
    have hgd : ((calculateSMA data period).getD j default)
        = { time := (data.getD ((period - 1) + j) default).time,
            value := (((data.drop (((period - 1) + j) + 1 - period)).take period).map
                (fun d => d.close)).sum / (period : ℚ),
            y := (jsDiv (maxPrice data
                    - (((data.drop (((period - 1) + j) + 1 - period)).take period).map
                        (fun d => d.close)).sum / (period : ℚ))
                  (priceRange data)).map (fun q => q * 100) } := by
      rw [hdef, List.getD_eq_getElem _ _ hlen2, List.getElem_map, List.getElem_drop,
        List.getElem_range]
    have hidx : (period - 1) + j = j + period - 1 := by omega
    have hidx2 : ((period - 1) + j) + 1 - period = j := by omega
    rw [hgd, hidx2, hidx]
    refine ⟨rfl, ?_⟩
    have hwin : j + period ≤ data.length := by omega
    show (((data.drop j).take period).map (fun d => d.close)).sum / (period : ℚ)
        = (∑ t : Fin period, (data.getD (j + (t : ℕ)) default).close) / (period : ℚ)
    rw [window_closes_eq_ofFn data j period hwin, List.sum_ofFn]

/-- Reading `getD` through a `drop`: element `j` of `l.drop k` is element `k + j` of `l`. -/
theorem getD_drop_eq {α : Type} (l : List α) (k j : ℕ) (d : α) :
    (l.drop k).getD j d = l.getD (k + j) d := by
  by_cases h : k + j < l.length
  · have h2 : j < (l.drop k).length := by
      simp only [List.length_drop]
      omega
    rw [List.getD_eq_getElem _ _ h2, List.getD_eq_getElem _ _ h, List.getElem_drop]
  · rw [List.getD_eq_default, List.getD_eq_default]
    · omega
    · simp only [List.length_drop]
      omega

/-- The EMA recurrence map preserves list length. -/
theorem emaMap_length (maxP range m : ℚ) (l : List OHLCData) :
    ∀ e : ℚ, (emaMap maxP range m e l).length = l.length := by
  induction l with
  | nil => intro e; rfl
  | cons d rest ih =>
    intro e
    simp only [emaMap, List.length_cons, ih]

/-- The EMA recurrence map keeps each source candle's time label. -/
theorem emaMap_time (maxP range m : ℚ) (l : List OHLCData) :
    ∀ (e : ℚ) (j : ℕ), j < l.length →
      ((emaMap maxP range m e l).getD j default).time = (l.getD j default).time := by
  induction l with
  | nil =>
    intro e j h
    simp at h
  | cons d rest ih =>
    intro e j h
    cases j with
    | zero => rfl
    | succ j =>
      show ((emaMap maxP range m ((d.close - e) * m + e) rest).getD j default).time
          = (rest.getD j default).time
      exact ih _ j (by simpa using h)

/-- The first value the EMA recurrence map emits. -/
theorem emaMap_value_zero (maxP range m e : ℚ) (d : OHLCData) (rest : List OHLCData) :
    ((emaMap maxP range m e (d :: rest)).getD 0 default).value = (d.close - e) * m + e := rfl

/-- Every later value the EMA recurrence map emits satisfies the
`ema[n] = (close[n] - ema[n-1]) * multiplier + ema[n-1]` recurrence. -/
theorem emaMap_value_succ (maxP range m : ℚ) (l : List OHLCData) :
    ∀ (e : ℚ) (j : ℕ), j + 1 < l.length →
      ((emaMap maxP range m e l).getD (j + 1) default).value
        = ((l.getD (j + 1) default).close
              - ((emaMap maxP range m e l).getD j default).value) * m
          + ((emaMap maxP range m e l).getD j default).value := by
  induction l with
  | nil =>
    intro e j h
    simp at h
  | cons d rest ih =>
    intro e j h
    cases j with
    | zero =>
      cases rest with
      | nil => simp at h
      | cons d2 rest2 => rfl
    | succ j =>
      exact ih ((d.close - e) * m + e) j (by simpa using h)

/-- A small three-candle window used to instantiate the SMA and EMA theorems. -/
def window3 : List OHLCData :=
  [⟨"d1", 1, 3, 0, 2, 0⟩, ⟨"d2", 2, 4, 1, 3, 0⟩, ⟨"d3", 3, 5, 2, 4, 0⟩]

/-- Witness for the SMA theorem at the concrete three-candle window with
period 2. -/
theorem c2_sma_witness :
    (calculateSMA window3 2).length = window3.length - 2 + 1 ∧
    ((calculateSMA window3 2).getD 0 default).time = (window3.getD (0 + 2 - 1) default).time ∧
    ((calculateSMA window3 2).getD 0 default).value
      = (∑ t : Fin 2, (window3.getD (0 + (t : ℕ)) default).close) / ((2 : ℕ) : ℚ) := by
  have h := (c2_sma_length_values_times window3 2 (by norm_num)).2 (by decide)
  have h0 := h.2 0 (by rw [h.1]; decide)
  exact ⟨h.1, h0.1, h0.2⟩

/-- C3: for a window at least as long as the period, `calculateEMA` emits
exactly `length - period` points (one fewer than SMA); the first value applies
the recurrence with multiplier `2/(period+1)` to the seed, the simple average
of the first `period` closes, at the candle right after the seed window, and
every later value applies the recurrence to its predecessor; each point keeps
its candle's time label; shorter windows give the empty series. -/
theorem c3_ema_length_seed_recurrence (data : List OHLCData) (period : ℕ)
    (hp : 1 ≤ period) :
    (data.length < period → calculateEMA data period = []) ∧
    (period ≤ data.length →
      (calculateEMA data period).length = data.length - period ∧
      (∀ j, j < (calculateEMA data period).length →
        ((calculateEMA data period).getD j default).time
          = (data.getD (period + j) default).time) ∧
      (0 < (calculateEMA data period).length →
        ((calculateEMA data period).getD 0 default).value
          = ((data.getD (period + 0) default).close
                - (∑ t : Fin period, (data.getD (t : ℕ) default).close) / (period : ℚ))
              * (2 / ((period : ℚ) + 1))
            + (∑ t : Fin period, (data.getD (t : ℕ) default).close) / (period : ℚ)) ∧
      (∀ j, j + 1 < (calculateEMA data period).length →
        ((calculateEMA data period).getD (j + 1) default).value
          = ((data.getD (period + (j + 1)) default).close
                - ((calculateEMA data period).getD j default).value)
              * (2 / ((period : ℚ) + 1))
            + ((calculateEMA data period).getD j default).value)) := by
  constructor
  · intro h
    simp [calculateEMA, h]
  · intro h
    have hnot : ¬ data.length < period := by omega
    have hseed : (((data.take period).map (fun d => d.close)).sum) / (period : ℚ)
        = (∑ t : Fin period, (data.getD ((t : ℕ)) default).close) / (period : ℚ) := by
      have hw := window_closes_eq_ofFn data 0 period (by omega)
      rw [List.drop_zero] at hw
      simp only [Nat.zero_add] at hw
      rw [hw, List.sum_ofFn]
    have hdef : calculateEMA data period
        = emaMap (maxPrice data) (priceRange data) (2 / ((period : ℚ) + 1))
            ((((data.take period).map (fun d => d.close)).sum) / (period : ℚ))
            (data.drop period) := by
      simp only [calculateEMA, if_neg hnot]
    have hlen : (calculateEMA data period).length = data.length - period := by
      rw [hdef, emaMap_length, List.length_drop]
    refine ⟨hlen, ?_, ?_, ?_⟩
    · intro j hj
      have hj2 : j < (data.drop period).length := by
        simp only [List.length_drop]
        omega
      rw [hdef, emaMap_time _ _ _ _ _ j hj2, getD_drop_eq]
    · intro hpos
      have hne : data.drop period ≠ [] := by
        intro hnil
        rw [hlen] at hpos
        have := congrArg List.length hnil
        simp only [List.length_drop, List.length_nil] at this
        omega
      rcases hd : data.drop period with _ | ⟨d2, rest⟩
      · exact absurd hd hne
      · have hclose : d2.close = (data.getD (period + 0) default).close := by
          have := getD_drop_eq data period 0 default
          rw [hd, List.getD_cons_zero] at this
          rw [this]
        rw [hdef, hd, emaMap_value_zero, hclose, hseed]
    · intro j hj
      have hj2 : j + 1 < (data.drop period).length := by
        rw [hlen] at hj
        simp only [List.length_drop]
        omega
      rw [hdef, emaMap_value_succ _ _ _ _ _ j hj2, getD_drop_eq]

/-- Witness for the EMA theorem at the concrete three-candle window with
period 2: one point (one fewer than the two SMA points), built from the seed. -/
theorem c3_ema_witness :
    (calculateEMA window3 2).length = window3.length - 2 ∧
    ((calculateEMA window3 2).getD 0 default).value
      = ((window3.getD (2 + 0) default).close
            - (∑ t : Fin 2, (window3.getD ((t : ℕ)) default).close) / ((2 : ℕ) : ℚ))
          * (2 / (((2 : ℕ) : ℚ) + 1))
        + (∑ t : Fin 2, (window3.getD ((t : ℕ)) default).close) / ((2 : ℕ) : ℚ) := by
  have h := (c3_ema_length_seed_recurrence window3 2 (by norm_num)).2 (by decide)
  exact ⟨h.1, h.2.2.1 (by rw [h.1]; decide)⟩

/-- The sum of the positive elements of a list of rationals is the sum of its
positive parts. -/
theorem sum_filter_pos_eq (l : List ℚ) :
    (l.filter (fun c => decide (0 < c))).sum = (l.map (fun c => max c 0)).sum := by
  induction l with
  | nil => rfl
  | cons a l ih =>
    by_cases ha : 0 < a
    · simp only [List.filter_cons, ha, decide_True, if_true, List.map_cons, List.sum_cons, ih,
        max_eq_left ha.le]
    · have ha2 : a ≤ 0 := le_of_not_lt ha
      simp only [List.filter_cons, ha, decide_False, Bool.false_eq_true, if_false,
        List.map_cons, List.sum_cons, ih, max_eq_right ha2]
      ring

/-- The sum of the negative elements of a list of rationals is the negated sum
of its negative parts. -/
theorem sum_filter_neg_eq (l : List ℚ) :
    (l.filter (fun c => decide (c < 0))).sum = -((l.map (fun c => max (-c) 0)).sum) := by
  induction l with
  | nil => simp
  | cons a l ih =>
    by_cases ha : a < 0
    · have ha2 : (0 : ℚ) ≤ -a := by linarith
      simp only [List.filter_cons, ha, decide_True, if_true, List.map_cons, List.sum_cons, ih,
        max_eq_left ha2]
      ring
    · have ha2 : -a ≤ 0 := by
        simp only [neg_nonpos]
        exact le_of_not_lt ha
      simp only [List.filter_cons, ha, decide_False, Bool.false_eq_true, if_false,
        List.map_cons, List.sum_cons, ih, max_eq_right ha2]
      ring

/-- The sum of the negative parts of a list is nonnegative. -/
theorem sum_neg_parts_nonneg (l : List ℚ) : 0 ≤ (l.map (fun c => max (-c) 0)).sum := by
  apply List.sum_nonneg
  intro x hx
  rcases List.mem_map.mp hx with ⟨c, _, hc⟩
  rw [← hc]
  exact le_max_right _ _

/-- The 14 first differences of the trailing 15 closes, as a function table. -/
theorem rsi_changes_eq_ofFn (data : List OHLCData) (h : 15 ≤ data.length) :
    List.zipWith (fun a b => b.close - a.close) (data.drop (data.length - 15))
        ((data.drop (data.length - 15)).drop 1)
      = List.ofFn (fun t : Fin 14 =>
          (data.getD (data.length - 15 + (t : ℕ) + 1) default).close
            - (data.getD (data.length - 15 + (t : ℕ)) default).close) := by
  apply List.ext_getElem
  · simp only [List.length_zipWith, List.length_drop, List.length_ofFn]
    omega
  · intro n h1 h2
    have hn : n < 14 := by simpa using h2
    simp only [List.getElem_zipWith, List.getElem_drop, List.getElem_ofFn]
    rw [List.getD_eq_getElem data default (by omega), List.getD_eq_getElem data default (by omega)]
    have hidx : data.length - 15 + (1 + n) = data.length - 15 + n + 1 := by omega
    simp only [hidx]

/-- C4: below 15 candles the RSI is exactly the neutral 50; from 15 candles on
it is `100 - 100/(1+RS)` where the 14 first differences of the trailing 15
closes give the average gain (sum of positive parts over 14) and average loss
(sum of negative parts over 14), and the RS denominator is floored to 1 when
the average loss is 0, so the result is always a finite rational. -/
theorem c4_rsi_formula (data : List OHLCData) :
    (data.length < 15 → calculateRSI data = 50) ∧
    (15 ≤ data.length →
      calculateRSI data
        = 100 - 100 / (1 +
            ((∑ t : Fin 14, max ((data.getD (data.length - 15 + (t : ℕ) + 1) default).close
                  - (data.getD (data.length - 15 + (t : ℕ)) default).close) 0) / ((14 : ℕ) : ℚ))
            / (if ((∑ t : Fin 14, max (-((data.getD (data.length - 15 + (t : ℕ) + 1) default).close
                      - (data.getD (data.length - 15 + (t : ℕ)) default).close)) 0)
                    / ((14 : ℕ) : ℚ)) = 0
                then 1
                else ((∑ t : Fin 14, max (-((data.getD (data.length - 15 + (t : ℕ) + 1) default).close
                      - (data.getD (data.length - 15 + (t : ℕ)) default).close)) 0)
                    / ((14 : ℕ) : ℚ))))) := by
  constructor
  · intro h
    simp only [calculateRSI]
    rw [if_pos (by omega)]
  · intro h
    have hnot : ¬ data.length < 14 + 1 := by omega
    simp only [calculateRSI]
    rw [if_neg hnot]
    have hdrop : data.length - (14 + 1) = data.length - 15 := by norm_num
    rw [hdrop, rsi_changes_eq_ofFn data h, sum_filter_pos_eq, sum_filter_neg_eq, abs_neg,
      abs_of_nonneg (sum_neg_parts_nonneg _), List.map_ofFn, List.map_ofFn, List.sum_ofFn,
      List.sum_ofFn]
    simp only [Function.comp]

/-- A fifteen-candle window used to instantiate the RSI theorem. -/
def window15 : List OHLCData :=
  [⟨"r1", 1, 2, 1, 2, 0⟩, ⟨"r2", 2, 3, 1, 1, 0⟩, ⟨"r3", 1, 4, 1, 3, 0⟩,
   ⟨"r4", 3, 5, 2, 4, 0⟩, ⟨"r5", 4, 5, 1, 2, 0⟩, ⟨"r6", 2, 6, 2, 5, 0⟩,
   ⟨"r7", 5, 7, 4, 6, 0⟩, ⟨"r8", 6, 7, 3, 4, 0⟩, ⟨"r9", 4, 8, 4, 7, 0⟩,
   ⟨"r10", 7, 9, 6, 8, 0⟩, ⟨"r11", 8, 9, 5, 6, 0⟩, ⟨"r12", 6, 10, 6, 9, 0⟩,
   ⟨"r13", 9, 11, 8, 10, 0⟩, ⟨"r14", 10, 11, 7, 8, 0⟩, ⟨"r15", 8, 12, 8, 11, 0⟩]

/-- Witness for the RSI theorem: the three-candle window hits the neutral 50
branch and the fifteen-candle window hits the formula branch. -/
theorem c4_rsi_witness :
    calculateRSI window3 = 50 ∧
    calculateRSI window15
      = 100 - 100 / (1 +
          ((∑ t : Fin 14, max ((window15.getD (window15.length - 15 + (t : ℕ) + 1) default).close
                - (window15.getD (window15.length - 15 + (t : ℕ)) default).close) 0)
              / ((14 : ℕ) : ℚ))
          / (if ((∑ t : Fin 14, max (-((window15.getD (window15.length - 15 + (t : ℕ) + 1)
                      default).close
                    - (window15.getD (window15.length - 15 + (t : ℕ)) default).close)) 0)
                  / ((14 : ℕ) : ℚ)) = 0
              then 1
              else ((∑ t : Fin 14, max (-((window15.getD (window15.length - 15 + (t : ℕ) + 1)
                      default).close
                    - (window15.getD (window15.length - 15 + (t : ℕ)) default).close)) 0)
                  / ((14 : ℕ) : ℚ)))) :=
  ⟨(c4_rsi_formula window3).1 (by decide), (c4_rsi_formula window15).2 (by decide)⟩

/-- Mapping any function over the `n`-candle slice starting at index `j`,
written as a function table. -/
theorem window_map_eq_ofFn {α : Type} (f : OHLCData → α) (data : List OHLCData) (j n : ℕ)
    (h : j + n ≤ data.length) :
    ((data.drop j).take n).map f
      = List.ofFn (fun t : Fin n => f (data.getD (j + (t : ℕ)) default)) := by
  apply List.ext_getElem
  · simp only [List.length_map, List.length_take, List.length_drop, List.length_ofFn]
    omega
  · intro m h1 h2
    have hm : m < n := by
      simp only [List.length_ofFn] at h2
      exact h2
    simp only [List.getElem_map, List.getElem_take, List.getElem_drop, List.getElem_ofFn]
    rw [List.getD_eq_getElem data default (by omega)]

/-- C5: below 20 candles all three bands are empty; otherwise the three bands
have equal length `length - 19`, are index-aligned on the time label of the
last candle of each trailing block, `middle` is the mean of the trailing 20
closes, and `upper`/`lower` sit two population standard deviations
(`sqrt` of the mean squared deviation of the same 20 closes) above and below
it; on a 20-candle window of identical closes the three bands carry identical
values. -/
theorem c5_bollinger_bands (data : List OHLCData) :
    (data.length < 20 → (calculateBollingerBands data).upper = []
        ∧ (calculateBollingerBands data).middle = []
        ∧ (calculateBollingerBands data).lower = []) ∧
    (20 ≤ data.length →
      (calculateBollingerBands data).upper.length = data.length - 19 ∧
      (calculateBollingerBands data).middle.length = data.length - 19 ∧
      (calculateBollingerBands data).lower.length = data.length - 19 ∧
      ∀ j, j < data.length - 19 →
        ((calculateBollingerBands data).upper.getD j default).time
            = (data.getD (j + 19) default).time ∧
        ((calculateBollingerBands data).middle.getD j default).time
            = (data.getD (j + 19) default).time ∧
        ((calculateBollingerBands data).lower.getD j default).time
            = (data.getD (j + 19) default).time ∧
        ((calculateBollingerBands data).middle.getD j default).value
            = (∑ t : Fin 20, ((data.getD (j + (t : ℕ)) default).close : ℝ)) / 20 ∧
        ((calculateBollingerBands data).upper.getD j default).value
            = ((calculateBollingerBands data).middle.getD j default).value
              + 2 * Real.sqrt ((∑ t : Fin 20, (((data.getD (j + (t : ℕ)) default).close : ℝ)
                  - (∑ s : Fin 20, ((data.getD (j + (s : ℕ)) default).close : ℝ)) / 20) ^ 2) / 20) ∧
        ((calculateBollingerBands data).lower.getD j default).value
            = ((calculateBollingerBands data).middle.getD j default).value
              - 2 * Real.sqrt ((∑ t : Fin 20, (((data.getD (j + (t : ℕ)) default).close : ℝ)
                  - (∑ s : Fin 20, ((data.getD (j + (s : ℕ)) default).close : ℝ)) / 20) ^ 2) / 20)) ∧
    (∀ c : ℚ, data.length = 20 → (∀ d ∈ data, d.close = c) →
      (calculateBollingerBands data).upper.map (fun p => p.value)
          = (calculateBollingerBands data).middle.map (fun p => p.value) ∧
      (calculateBollingerBands data).lower.map (fun p => p.value)
          = (calculateBollingerBands data).middle.map (fun p => p.value)) := by
  refine ⟨?_, ?_, ?_⟩
  · intro h
    simp only [calculateBollingerBands, if_pos h]
    exact ⟨trivial, trivial, trivial⟩
  · intro h
    have hnot : ¬ data.length < 20 := by omega
    have hsma : ∀ j, j < data.length - 19 →
        bbSma data (j + 19)
          = (∑ t : Fin 20, ((data.getD (j + (t : ℕ)) default).close : ℝ)) / 20 := by
      intro j hj
      rw [bbSma]
      have h1 : j + 19 + 1 - 20 = j := by omega
      rw [h1, window_map_eq_ofFn (fun d => (d.close : ℝ)) data j 20 (by omega), List.sum_ofFn]
    have hvar : ∀ j, j < data.length - 19 →
        bbVariance data (j + 19)
          = (∑ t : Fin 20, (((data.getD (j + (t : ℕ)) default).close : ℝ)
              - (∑ s : Fin 20, ((data.getD (j + (s : ℕ)) default).close : ℝ)) / 20) ^ 2) / 20 := by
      intro j hj
      rw [bbVariance]
      have h1 : j + 19 + 1 - 20 = j := by omega
      rw [h1, hsma j hj,
        window_map_eq_ofFn
          (fun d => ((d.close : ℝ)
            - (∑ s : Fin 20, ((data.getD (j + (s : ℕ)) default).close : ℝ)) / 20) ^ 2)
          data j 20 (by omega),
        List.sum_ofFn]
    simp only [calculateBollingerBands, if_neg hnot]
    have hlen : ∀ α : Type, ∀ f : ℕ → α,
        (((List.range data.length).drop 19).map f).length = data.length - 19 := by
      intro α f
      simp only [List.length_map, List.length_drop, List.length_range]
    refine ⟨hlen _ _, hlen _ _, hlen _ _, ?_⟩
    intro j hj
    have hdlen : j < ((List.range data.length).drop 19).length := by
      simp only [List.length_drop, List.length_range]
      omega
    have hmaplen : ∀ α : Type, ∀ [Inhabited α], ∀ f : ℕ → α,
        (((List.range data.length).drop 19).map f).getD j default = f (19 + j) := by
      intro α _ f
      rw [List.getD_eq_getElem _ _ (by rw [hlen]; omega), List.getElem_map, List.getElem_drop,
        List.getElem_range]
    have hidx : 19 + j = j + 19 := by omega
    simp only [hmaplen, hidx]
    exact ⟨trivial, trivial, trivial, hsma j hj, by rw [hsma j hj, hvar j hj],
      by rw [hsma j hj, hvar j hj]⟩
  · intro c hlen20 hcl
    have hnot : ¬ data.length < 20 := by omega
    have hsma : bbSma data 19 = (c : ℝ) := by
      rw [bbSma]
      have h1 : (19 : ℕ) + 1 - 20 = 0 := by norm_num
      rw [h1, List.drop_zero, List.take_of_length_le (by omega),
        List.map_congr_left (fun d hd => by rw [hcl d hd] :
          ∀ d ∈ data, ((d.close : ℝ)) = ((c : ℚ) : ℝ)),
        List.map_const', hlen20, List.sum_replicate, nsmul_eq_mul]
      push_cast
      rw [mul_div_cancel_left₀ _ (by norm_num : (20 : ℝ) ≠ 0)]
    have hvar : bbVariance data 19 = 0 := by
      rw [bbVariance]
      have h1 : (19 : ℕ) + 1 - 20 = 0 := by norm_num
      rw [h1, List.drop_zero, List.take_of_length_le (by omega),
        List.map_congr_left (fun d hd => by rw [hcl d hd, hsma]; ring_nf :
          ∀ d ∈ data, ((d.close : ℝ) - bbSma data 19) ^ 2 = 0),
        List.map_const', hlen20, List.sum_replicate]
      simp
    have hd20 : (List.range data.length).drop 19 = [19] := by
      rw [hlen20]
      decide
    simp only [calculateBollingerBands, if_neg hnot, hd20, List.map_cons, List.map_nil,
      hvar, Real.sqrt_zero]
    norm_num

/-- A twenty-candle window with identical closes, for the Bollinger witness. -/
def window20 : List OHLCData := List.replicate 20 ⟨"b", 2, 3, 1, 2, 0⟩

/-- Witness for the Bollinger theorem: empty bands on the short window, the
band length on the twenty-candle window, and the collapsed bands on identical
closes. -/
theorem c5_bollinger_witness :
    (calculateBollingerBands window3).upper = [] ∧
    (calculateBollingerBands window20).middle.length = window20.length - 19 ∧
    (calculateBollingerBands window20).upper.map (fun p => p.value)
      = (calculateBollingerBands window20).middle.map (fun p => p.value) := by
  refine ⟨((c5_bollinger_bands window3).1 (by decide)).1, ?_, ?_⟩
  · exact ((c5_bollinger_bands window20).2.1 (by decide)).2.1
  · exact ((c5_bollinger_bands window20).2.2 2 (by decide)
      (fun d hd => by rw [List.eq_of_mem_replicate hd])).1

/-- Reading `getD` at the last position is `getLast`. -/
theorem getD_length_sub_one_eq_getLast {α : Type} [Inhabited α] (l : List α) (h : l ≠ []) :
    l.getD (l.length - 1) default = l.getLast h := by
  rw [List.getLast_eq_getElem, List.getD_eq_getElem]

/-- C6: `calculateMACD` is all zero whenever the window is shorter than 26
candles (the EMA(26) series is then empty), and whenever both EMA series are
non-empty it returns the last EMA(12) value minus the last EMA(26) value, the
fixed constant 0 as the signal, and a histogram equal to the macd line. -/
theorem c6_macd_last_ema_diff (data : List OHLCData) :
    (data.length < 26 → calculateMACD data = ⟨0, 0, 0⟩) ∧
    (∀ h12 : calculateEMA data 12 ≠ [], ∀ h26 : calculateEMA data 26 ≠ [],
      calculateMACD data
        = ⟨((calculateEMA data 12).getLast h12).value
              - ((calculateEMA data 26).getLast h26).value,
           0,
           ((calculateEMA data 12).getLast h12).value
              - ((calculateEMA data 26).getLast h26).value⟩) := by
  constructor
  · intro h
    have h26 : calculateEMA data 26 = [] := by simp [calculateEMA, h]
    simp [calculateMACD, h26]
  · intro h12 h26
    have hcond : ¬((calculateEMA data 12).length = 0 ∨ (calculateEMA data 26).length = 0) := by
      rw [List.length_eq_zero, List.length_eq_zero]
      tauto
    simp only [calculateMACD]
    rw [if_neg hcond, getD_length_sub_one_eq_getLast _ h12, getD_length_sub_one_eq_getLast _ h26]

/-- A twenty-seven candle window, long enough for a non-empty EMA(26). -/
def window27 : List OHLCData := List.replicate 27 ⟨"m", 1, 1, 1, 1, 0⟩

/-- EMA(12) over the 27-candle window is non-empty. -/
theorem ema12_window27_ne_nil : calculateEMA window27 12 ≠ [] :=
  List.length_pos.mp (by decide)

/-- EMA(26) over the 27-candle window is non-empty. -/
theorem ema26_window27_ne_nil : calculateEMA window27 26 ≠ [] :=
  List.length_pos.mp (by decide)

/-- Witness for the MACD theorem: the all-zero short branch and the
last-EMA-difference branch at concrete windows. -/
theorem c6_macd_witness :
    calculateMACD window3 = ⟨0, 0, 0⟩ ∧
    calculateMACD window27
      = ⟨((calculateEMA window27 12).getLast ema12_window27_ne_nil).value
            - ((calculateEMA window27 26).getLast ema26_window27_ne_nil).value,
         0,
         ((calculateEMA window27 12).getLast ema12_window27_ne_nil).value
            - ((calculateEMA window27 26).getLast ema26_window27_ne_nil).value⟩ :=
  ⟨(c6_macd_last_ema_diff window3).1 (by decide),
   (c6_macd_last_ema_diff window27).2 ema12_window27_ne_nil ema26_window27_ne_nil⟩

/-- C10: the all-zero MACD result in fact covers every window of up to 26
candles: at exactly 26 candles `calculateEMA(26)` emits no points
(`data.slice(26)` is empty), so the zero branch is taken one candle beyond
the below-26 windows. -/
theorem c10_macd_zero_upto_26 (data : List OHLCData) (h : data.length ≤ 26) :
    calculateEMA data 26 = [] ∧ calculateMACD data = ⟨0, 0, 0⟩ := by
  have h26 : calculateEMA data 26 = [] := by
    by_cases hlt : data.length < 26
    · simp [calculateEMA, hlt]
    · simp only [calculateEMA, if_neg hlt]
      rw [List.drop_eq_nil_of_le (by omega)]
      rfl
  exact ⟨h26, by simp [calculateMACD, h26]⟩

/-- A twenty-six candle window for the boundary case of the MACD zero result. -/
def window26 : List OHLCData := List.replicate 26 ⟨"z", 3, 4, 2, 3, 0⟩

/-- Witness for the boundary MACD theorem at a window of exactly 26 candles. -/
theorem c10_macd_witness :
    calculateEMA window26 26 = [] ∧ calculateMACD window26 = ⟨0, 0, 0⟩ :=
  c10_macd_zero_upto_26 window26 (by decide)

/-- Membership in a conditional singleton yields the element and the guard. -/
theorem mem_ite_singleton {c : Prop} [Decidable c] {p x : Pattern}
    (h : p ∈ (if c then [x] else [])) : p = x ∧ c := by
  by_cases hc : c
  · rw [if_pos hc] at h
    exact ⟨List.mem_singleton.mp h, hc⟩
  · rw [if_neg hc] at h
    exact absurd h (List.not_mem_nil p)

/-- A three-candle window whose candles are all bearish with strictly
decreasing closes, but whose last candle has a long lower wick and a tiny
upper wick: open 90, high 90.1, low 80, close 89. -/
def crowsHammerWindow : List OHLCData :=
  [⟨"a", 100, 100, 95, 95, 0⟩, ⟨"b", 95, 95, 90, 90, 0⟩, ⟨"c", 90, 901 / 10, 80, 89, 0⟩]

/-- C7 counterexample: this window satisfies the claim premise (three bearish
candles with strictly decreasing closes), yet `detectPatterns` also emits the
bullish Hammer pattern, so the output does not exclude bullish entries. -/
theorem c7_bearish_window_with_bullish_pattern :
    crowsHammerWindow.length = 3 ∧
    ((crowsHammerWindow.getD 0 default).close < (crowsHammerWindow.getD 0 default).«open» ∧
     (crowsHammerWindow.getD 1 default).close < (crowsHammerWindow.getD 1 default).«open» ∧
     (crowsHammerWindow.getD 2 default).close < (crowsHammerWindow.getD 2 default).«open» ∧
     (crowsHammerWindow.getD 2 default).close < (crowsHammerWindow.getD 1 default).close ∧
     (crowsHammerWindow.getD 1 default).close < (crowsHammerWindow.getD 0 default).close) ∧
    threeBlackCrowsPattern ∈ detectPatterns crowsHammerWindow ∧
    hammerPattern ∈ detectPatterns crowsHammerWindow ∧
    hammerPattern.type = PatternType.bullish := by
  have hdp : detectPatterns crowsHammerWindow
      = [hammerPattern, dojiPattern, threeBlackCrowsPattern] := by
    norm_num [detectPatterns, crowsHammerWindow, max_def, min_def, abs]
  refine ⟨rfl, by norm_num [crowsHammerWindow], ?_, ?_, rfl⟩
  · rw [hdp]
    simp
  · rw [hdp]
    simp

/-- C7 amended: on a window of at least 3 candles whose last three candles are
all bearish with strictly decreasing closes, `detectPatterns` emits the Three
Black Crows entry (bearish, confidence 80), and the only bullish entry the
output can contain is the Hammer (in particular no Bullish Engulfing entry
appears). -/
theorem c7_three_black_crows_amended (data : List OHLCData) (h3 : 3 ≤ data.length)
    (h1 : (data.getD (data.length - 3) default).close
        < (data.getD (data.length - 3) default).«open»)
    (h2 : (data.getD (data.length - 2) default).close
        < (data.getD (data.length - 2) default).«open»)
    (hlast : (data.getD (data.length - 1) default).close
        < (data.getD (data.length - 1) default).«open»)
    (hd1 : (data.getD (data.length - 1) default).close
        < (data.getD (data.length - 2) default).close)
    (hd2 : (data.getD (data.length - 2) default).close
        < (data.getD (data.length - 3) default).close) :
    threeBlackCrowsPattern ∈ detectPatterns data ∧
    threeBlackCrowsPattern.type = PatternType.bearish ∧
    threeBlackCrowsPattern.confidence = 80 ∧
    ∀ p ∈ detectPatterns data, p.type = PatternType.bullish → p = hammerPattern := by
  have hnot : ¬ data.length < 3 := by omega
  have hrlen : (data.drop (data.length - 5)).length = data.length - (data.length - 5) :=
    List.length_drop _ _
  have hr1 : (data.drop (data.length - 5)).getD ((data.drop (data.length - 5)).length - 1) default
      = data.getD (data.length - 1) default := by
    rw [getD_drop_eq]
    congr 1
    rw [hrlen]
    omega
  have hr2 : (data.drop (data.length - 5)).getD ((data.drop (data.length - 5)).length - 2) default
      = data.getD (data.length - 2) default := by
    rw [getD_drop_eq]
    congr 1
    rw [hrlen]
    omega
  have hr3 : (data.drop (data.length - 5)).getD ((data.drop (data.length - 5)).length - 3) default
      = data.getD (data.length - 3) default := by
    rw [getD_drop_eq]
    congr 1
    rw [hrlen]
    omega
  have hrge : 3 ≤ (data.drop (data.length - 5)).length := by
    rw [hrlen]
    omega
  simp only [detectPatterns, if_neg hnot, hr1, hr2, hr3]
  refine ⟨?_, rfl, rfl, ?_⟩
  · refine List.mem_append_right _ ?_
    rw [if_pos hrge, if_pos ⟨h1, h2, hlast, hd1, hd2⟩]
    exact List.mem_singleton_self _
  · intro p hp hb
    rcases List.mem_append.mp hp with hp | hF
    · rcases List.mem_append.mp hp with hp | hE
      · rcases List.mem_append.mp hp with hp | hD
        · rcases List.mem_append.mp hp with hp | hC
          · rcases List.mem_append.mp hp with hA | hB
            · exact (mem_ite_singleton hA).1
            · rw [(mem_ite_singleton hB).1] at hb
              exact absurd hb (by decide)
          · rw [(mem_ite_singleton hC).1] at hb
            exact absurd hb (by decide)
        · exact absurd (mem_ite_singleton hD).2.1 hlast.asymm
      · rw [(mem_ite_singleton hE).1] at hb
        exact absurd hb (by decide)
    · rw [if_pos hrge] at hF
      rw [(mem_ite_singleton hF).1] at hb
      exact absurd hb (by decide)

/-- The spec's example window: closes 100 to 95, 95 to 90, 90 to 85, each
candle bearish, with no wicks. -/
def crowsWindow : List OHLCData :=
  [⟨"p1", 100, 100, 95, 95, 0⟩, ⟨"p2", 95, 95, 90, 90, 0⟩, ⟨"p3", 90, 90, 85, 85, 0⟩]

/-- Witness for the amended Three Black Crows theorem at the spec's example
window. -/
theorem c7_amended_witness :
    threeBlackCrowsPattern ∈ detectPatterns crowsWindow ∧
    threeBlackCrowsPattern.type = PatternType.bearish ∧
    threeBlackCrowsPattern.confidence = 80 ∧
    ∀ p ∈ detectPatterns crowsWindow, p.type = PatternType.bullish → p = hammerPattern :=
  c7_three_black_crows_amended crowsWindow (by decide) (by decide) (by decide) (by decide)
    (by decide) (by decide)

/-- A pass over alerts that are all inactive leaves the evaluator state
untouched: every iteration takes the early return. -/
theorem foldl_alertStep_inactive (d2 : List CryptoData) :
    ∀ todo : List PriceAlert, (∀ x ∈ todo, x.active = false) →
      ∀ st : List PriceAlert × List AlertNotification, todo.foldl (alertStep d2) st = st := by
  intro todo
  induction todo with
  | nil =>
    intro _ st
    rfl
  | cons a rest ih =>
    intro hin st
    rw [List.foldl_cons]
    have ha : a.active = false := hin a (List.mem_cons_self a rest)
    have hstep : alertStep d2 st a = st := by simp [alertStep, ha]
    rw [hstep]
    exact ih (fun x hx => hin x (List.mem_cons_of_mem a hx)) st

/-- C8: the alert evaluator is one-shot.  For an active rule whose asset is in
the snapshot: if the trigger test holds the pass emits exactly one
notification and deactivates the rule in the same tick, and any later pass on
the now-inactive rule emits nothing and changes nothing, whatever the
snapshot; if the trigger test fails, nothing fires and nothing changes.
In general any pass over only-inactive rules is a no-op. -/
theorem c8_alert_one_shot (a : PriceAlert) (c : CryptoData) (data : List CryptoData)
    (hfind : data.find? (fun x => x.id == a.cryptoId) = some c)
    (hact : a.active = true) :
    (triggeredProp a c →
      checkPriceAlerts data [a]
        = ([{ a with active := false }],
           [⟨a.cryptoName, c.price, a.condition, a.targetPrice⟩]) ∧
      ∀ data2 : List CryptoData,
        checkPriceAlerts data2 [{ a with active := false }]
          = ([{ a with active := false }], [])) ∧
    (¬ triggeredProp a c → checkPriceAlerts data [a] = ([a], [])) ∧
    (∀ (alerts : List PriceAlert) (d2 : List CryptoData),
      (∀ x ∈ alerts, x.active = false) → checkPriceAlerts d2 alerts = (alerts, [])) := by
  have hstep : checkPriceAlerts data [a] = alertStep data ([a], []) a := rfl
  refine ⟨?_, ?_, ?_⟩
  · intro htrig
    constructor
    · rw [hstep]
      simp [alertStep, hact, hfind, htrig]
    · intro data2
      exact foldl_alertStep_inactive data2 [{ a with active := false }] (by simp)
        ([{ a with active := false }], [])
  · intro hntrig
    rw [hstep]
    simp [alertStep, hact, hfind, hntrig]
  · intro alerts d2 hin
    exact foldl_alertStep_inactive d2 alerts hin (alerts, [])

/-- The user rule of the spec scenario: above 100, active. -/
def alertRule1 : PriceAlert := ⟨"1", "bitcoin", "Bitcoin", 100, AlertCondition.above, true⟩

/-- A snapshot in which bitcoin trades exactly at the target price. -/
def snapshot1 : List CryptoData := [⟨"bitcoin", 100⟩]

/-- Witness for the one-shot theorem: the rule against price 100 fires exactly
once, and the second pass with the rule inactive changes nothing. -/
theorem c8_alert_witness :
    checkPriceAlerts snapshot1 [alertRule1]
      = ([{ alertRule1 with active := false }],
         [⟨alertRule1.cryptoName, (100 : ℚ), alertRule1.condition, alertRule1.targetPrice⟩]) ∧
    checkPriceAlerts snapshot1 [{ alertRule1 with active := false }]
      = ([{ alertRule1 with active := false }], []) := by
  have htrig : triggeredProp alertRule1 ⟨"bitcoin", 100⟩ := by decide
  have h := c8_alert_one_shot alertRule1 ⟨"bitcoin", 100⟩ snapshot1 (by decide) rfl
  exact ⟨(h.1 htrig).1, (h.1 htrig).2 snapshot1⟩

/-- One iteration of the pass, projected on the rule list: a firing rule maps
the current list through the by-id deactivation, anything else leaves it. -/
theorem alertStep_fst (data : List CryptoData) (st : List PriceAlert × List AlertNotification)
    (alert : PriceAlert) :
    (alertStep data st alert).1
      = if firesB data alert
          then st.1.map (fun x => if x.id == alert.id then { x with active := false } else x)
          else st.1 := by
  by_cases ha : alert.active = true
  · cases hf : data.find? (fun c => c.id == alert.cryptoId) with
    | none => simp [alertStep, firesB, ha, hf]
    | some crypto =>
      by_cases ht : triggeredProp alert crypto
      · simp [alertStep, firesB, ha, hf, ht]
      · simp [alertStep, firesB, ha, hf, ht]
  · have ha2 : alert.active = false := by
      revert ha
      cases alert.active <;> simp
    simp [alertStep, firesB, ha2]

/-- The whole pass, projected on the rule list, is a fold of by-id
deactivations for the firing rules. -/
theorem foldl_alertStep_fst (data : List CryptoData) :
    ∀ (todo : List PriceAlert) (st : List PriceAlert × List AlertNotification),
      (todo.foldl (alertStep data) st).1
        = todo.foldl (fun cur alert =>
            if firesB data alert
              then cur.map (fun x => if x.id == alert.id then { x with active := false } else x)
              else cur) st.1 := by
  intro todo
  induction todo with
  | nil =>
    intro st
    rfl
  | cons alert rest ih =>
    intro st
    rw [List.foldl_cons, List.foldl_cons, ih, alertStep_fst]

/-- Folding the by-id deactivations of the firing rules over any list is the
single map that deactivates exactly the elements whose id matches a firing
rule of the pass. -/
theorem foldl_deact_eq_map (data : List CryptoData) :
    ∀ (todo : List PriceAlert) (cur : List PriceAlert),
      todo.foldl (fun cur alert =>
          if firesB data alert
            then cur.map (fun x => if x.id == alert.id then { x with active := false } else x)
            else cur) cur
        = cur.map (fun x =>
            if (todo.filter (firesB data)).any (fun a => x.id == a.id)
              then { x with active := false } else x) := by
  intro todo
  induction todo with
  | nil =>
    intro cur
    simp
  | cons alert rest ih =>
    intro cur
    rw [List.foldl_cons]
    by_cases hf : firesB data alert
    · rw [if_pos hf, ih, List.map_map]
      apply List.map_congr_left
      intro x _
      simp only [Function.comp_apply, List.filter_cons, hf, if_true, List.any_cons]
      by_cases hx : (x.id == alert.id) = true
      · simp only [hx, if_true, Bool.true_or]
        by_cases hrest : ((rest.filter (firesB data)).any (fun a => x.id == a.id)) = true
        · simp [hrest]
        · simp [hrest]
      · simp only [hx, if_false, Bool.false_or]
        rfl
    · rw [if_neg hf, ih]
      apply List.map_congr_left
      intro x _
      simp only [List.filter_cons, hf]
      rfl

/-- Under pairwise-distinct rule ids, a rule's id matches some firing rule of
the pass exactly when the rule itself fires. -/
theorem any_filter_fires_iff (data : List CryptoData) (alerts : List PriceAlert)
    (hids : alerts.Pairwise (fun a b => a.id ≠ b.id)) (j : ℕ) (hj : j < alerts.length) :
    ((alerts.filter (firesB data)).any (fun a => alerts[j].id == a.id))
      = firesB data alerts[j] := by
  cases hF : firesB data alerts[j] with
  | true =>
    apply List.any_eq_true.mpr
    exact ⟨alerts[j], List.mem_filter.mpr ⟨List.getElem_mem hj, hF⟩, beq_self_eq_true _⟩
  | false =>
    by_contra h
    have hany : ((alerts.filter (firesB data)).any (fun a => alerts[j].id == a.id)) = true := by
      revert h
      cases (alerts.filter (firesB data)).any (fun a => alerts[j].id == a.id) <;> simp
    obtain ⟨x, hxmem, hxid⟩ := List.any_eq_true.mp hany
    obtain ⟨hxmem2, hxfires⟩ := List.mem_filter.mp hxmem
    have hid : alerts[j].id = x.id := by simpa using hxid
    obtain ⟨i, hi, hgi⟩ := List.mem_iff_getElem.mp hxmem2
    rcases Nat.lt_trichotomy i j with hij | hij | hij
    · have hR := (List.pairwise_iff_getElem.mp hids) i j hi hj hij
      rw [hgi] at hR
      exact hR hid.symm
    · subst hij
      rw [hgi, hxfires] at hF
      simp at hF
    · have hR := (List.pairwise_iff_getElem.mp hids) j i hj hi hij
      rw [hgi] at hR
      exact hR hid

/-- C9: frame of one evaluation pass, for rule lists with pairwise-distinct
ids.  The output list has one entry per input rule, in order; a rule whose
asset is absent from the snapshot comes out entirely unchanged; a rule that
fires comes out with only its `active` field changed (to `false`), all other
fields intact; a rule that does not fire comes out entirely unchanged. -/
theorem c9_alert_frame (data : List CryptoData) (alerts : List PriceAlert)
    (hids : alerts.Pairwise (fun a b => a.id ≠ b.id)) :
    (checkPriceAlerts data alerts).1.length = alerts.length ∧
    ∀ j, ∀ hj : j < alerts.length,
      (data.find? (fun c => c.id == alerts[j].cryptoId) = none →
          (checkPriceAlerts data alerts).1.getD j default = alerts[j]) ∧
      (firesB data alerts[j] = true →
          (checkPriceAlerts data alerts).1.getD j default
            = { alerts[j] with active := false }) ∧
      (firesB data alerts[j] = false →
          (checkPriceAlerts data alerts).1.getD j default = alerts[j]) := by
  have hmain : (checkPriceAlerts data alerts).1
      = alerts.map (fun x =>
          if (alerts.filter (firesB data)).any (fun a => x.id == a.id)
            then { x with active := false } else x) := by
    show (List.foldl (alertStep data) (alerts, []) alerts).1 = _
    rw [foldl_alertStep_fst data alerts (alerts, []), foldl_deact_eq_map data alerts alerts]
  have hlen : (checkPriceAlerts data alerts).1.length = alerts.length := by
    rw [hmain, List.length_map]
  refine ⟨hlen, ?_⟩
  intro j hj
  have hget : (checkPriceAlerts data alerts).1.getD j default
      = if (alerts.filter (firesB data)).any (fun a => alerts[j].id == a.id)
          then { alerts[j] with active := false } else alerts[j] := by
    rw [hmain, List.getD_eq_getElem _ _ (by rw [List.length_map]; exact hj), List.getElem_map]
  rw [hget, any_filter_fires_iff data alerts hids j hj]
  refine ⟨?_, ?_, ?_⟩
  · intro hnone
    have hF : firesB data alerts[j] = false := by
      simp [firesB, hnone]
    rw [hF]
    simp
  · intro hT
    rw [hT]
    simp
  · intro hF
    rw [hF]
    simp

/-- A second rule for an asset that is absent from the snapshot. -/
def alertRule2 : PriceAlert := ⟨"2", "dogecoin", "Dogecoin", 50, AlertCondition.below, true⟩

/-- Witness for the frame theorem: over the two-rule list against the
bitcoin-only snapshot, the first rule fires and comes out deactivated with all
other fields intact, while the absent-asset rule comes out untouched. -/
theorem c9_alert_witness :
    (checkPriceAlerts snapshot1 [alertRule1, alertRule2]).1.length
        = ([alertRule1, alertRule2] : List PriceAlert).length ∧
    (checkPriceAlerts snapshot1 [alertRule1, alertRule2]).1.getD 0 default
        = { alertRule1 with active := false } ∧
    (checkPriceAlerts snapshot1 [alertRule1, alertRule2]).1.getD 1 default = alertRule2 := by
  have h := c9_alert_frame snapshot1 [alertRule1, alertRule2] (by decide)
  exact ⟨h.1, (h.2 0 (by decide)).2.1 (by decide), (h.2 1 (by decide)).1 (by decide)⟩
